import Mathlib

/-!
Verification of the Next.js Actions Analyzer backend (Caido plugin).

The backend keeps module-level mutable state (invocation list, declared
actions, usage history, notes, seen-request-id set) and processes captured
request/response pairs.  We embed that state as `StoreState` and every
state-mutating routine as an explicit state-passing function.

Host/runtime primitives that are not part of the repository's code are
modelled as data or as function parameters bundled in `Rt`:
  * `JSON.parse` (used via `safeJsonParse`) is `Rt.jsonParse`, returning a
    value of the small JSON model `Js` or `none` on parse failure; JS
    numbers are split into integer (`Js.intNum`) and non-integer
    (`Js.floatNum`) values, matching the only test the code performs on
    them (`Number.isInteger`).
  * The regular-expression battery of `analyzeSecurity`'s error-leak rule
    (`errorPatterns.some (p => p.test body)`) is `Rt.errorTest`.
  * The four regex patterns of `findAllActions` (resp. `extractActionNames`)
    produce, per chunk body, a sequence of capture pairs
    `(match[1], match[2])`; this is `Rt.findMatcher` (resp.
    `Rt.extractMatcher`).  All filtering of those captures is repository
    code and is embedded faithfully.
String operations of the JS runtime (`includes`, `startsWith`, `trim`,
`split`, `slice`, `toLowerCase`, template joins) are modelled over the
character lists of Lean strings.
-/

/-- Model of `String.prototype.includes`: substring containment. -/
def jsIncludes (s pat : String) : Bool := decide (pat.data <:+: s.data)

/-- Model of `String.prototype.startsWith`. -/
def jsStartsWith (s pat : String) : Bool := decide (pat.data <+: s.data)

/-- Model of `String.prototype.endsWith`. -/
def jsEndsWith (s pat : String) : Bool := decide (pat.data <:+ s.data)

/-- Model of `String.prototype.trim` (strip leading/trailing whitespace). -/
def jsTrim (s : String) : String :=
  ⟨((s.data.dropWhile Char.isWhitespace).reverse.dropWhile Char.isWhitespace).reverse⟩

/-- Model of `String.prototype.toLowerCase` (ASCII case folding suffices here). -/
def jsLower (s : String) : String := ⟨s.data.map Char.toLower⟩

/-- Model of `String.prototype.toUpperCase`. -/
def jsUpper (s : String) : String := ⟨s.data.map Char.toUpper⟩

/-- Model of `String.prototype.slice(0, n)`. -/
def jsTake (s : String) (n : Nat) : String := ⟨s.data.take n⟩

/-- Model of `String.prototype.split(sep)` for a one-character separator. -/
def jsSplitCharAux (c : Char) : List Char → List (List Char)
  | [] => [[]]
  | x :: xs =>
    let r := jsSplitCharAux c xs
    if x = c then [] :: r
    else
      match r with
      | [] => [[x]]
      | l :: ls => (x :: l) :: ls

/-- Model of `String.prototype.split(sep)`, one-character separator, as strings. -/
def jsSplitChar (s : String) (c : Char) : List String :=
  (jsSplitCharAux c s.data).map (fun l => ⟨l⟩)

/-- Model of `Array.prototype.join("; ")` as used for security notes. -/
def joinNotes : List String → String
  | [] => ""
  | [x] => x
  | x :: xs => x ++ "; " ++ joinNotes xs

/-- Lookup in a JS string-keyed object modelled as an ordered association list. -/
def lookupA {α : Type} : List (String × α) → String → Option α
  | [], _ => none
  | (k', v) :: rest, k => if k' = k then some v else lookupA rest k

/-- Assignment `obj[k] = v` on a JS object: update in place or append at the end. -/
def insertA {α : Type} : List (String × α) → String → α → List (String × α)
  | [], k, v => [(k, v)]
  | (k', v') :: rest, k, v =>
    if k' = k then (k, v) :: rest else (k', v') :: insertA rest k v

/-- Small model of JSON values as produced by `JSON.parse`. -/
inductive Js where
  | null
  | bool (b : Bool)
  | intNum (n : Int)
  | floatNum
  | str (s : String)
  | arr (elems : List Js)
  | obj (fields : List (String × Js))

/-- Host/runtime primitives the backend calls but does not implement. -/
structure Rt where
  jsonParse : String → Option Js
  errorTest : String → Bool
  findMatcher : String → List (Option String × Option String)
  extractMatcher : String → List (Option String × Option String)

/-- Captured HTTP request as read through the Caido SDK accessors. -/
structure Request where
  requestId : String
  method : String
  url : String
  host : String
  path : String
  headers : List (String × String)
  body : Option String
  rawSize : Nat
deriving Repr, DecidableEq

/-- Captured HTTP response as read through the Caido SDK accessors
(`createdAt` carries the already-ISO-formatted creation timestamp). -/
structure Response where
  statusCode : Nat
  body : Option String
  rawSize : Nat
  createdAt : String
deriving Repr, DecidableEq

/-- Case-insensitive header lookup (`request.getHeader(name)`), all values. -/
def getHeaderValues (r : Request) (name : String) : List String :=
  (r.headers.filter (fun p => jsLower p.1 = jsLower name)).map (·.2)

/-- First header value, i.e. `request.getHeader(name)?.[0]`. -/
def getHeaderFirst (r : Request) (name : String) : Option String :=
  (getHeaderValues r name).head?

/-- Embedding of `getTextBody`: absent body becomes the empty string. -/
def getTextBody (body : Option String) : String :=
  match body with
  | none => ""
  | some t => t

/-- Embedding of `safeJsonParse`: empty text short-circuits, otherwise the
runtime JSON parser runs (`try/catch` becomes the `Option`). -/
def safeJsonParse (rt : Rt) (text : String) : Option Js :=
  if text.length = 0 then none else rt.jsonParse text

/-- Embedding of `isNextChunkRequest`. -/
def isNextChunkRequest (r : Request) : Bool :=
  if !(jsIncludes r.path "/_next/static/chunks/") then false
  else
    match (jsSplitChar r.path '?').head? with
    | none => false
    | some base => jsEndsWith base ".js"

/-- Embedding of `getNextActionIdFromRequest`. -/
def getNextActionIdFromRequest (r : Request) : Option String :=
  match getHeaderFirst r "Next-Action" with
  | none => none
  | some value =>
    let trimmed := jsTrim value
    if trimmed ≠ "" then some trimmed else none

/-- Fixed list of sensitive parameter names checked by `analyzeSecurity`. -/
def dangerousParams : List String :=
  ["id", "userId", "user_id", "role", "admin", "delete", "update", "team", "teamId"]

/-- Notes of the sensitive-parameter rule: one `Contains: <term>` per matched term. -/
def containsNotesOf (parameters : String) : List String :=
  let lowerParams := jsLower parameters
  dangerousParams.filterMap (fun danger =>
    if jsIncludes lowerParams (jsLower danger) then some ("Contains: " ++ danger)
    else none)

/-- Is this string all digits and nonempty (JS regex test of digits-only)? -/
def isAllDigits (s : String) : Bool := s ≠ "" && s.data.all Char.isDigit

/-- Notes of the direct-object-reference rule over the parsed JSON body:
for a JSON array of length `> 1`, every plain-object element from index 1
onward contributes `Direct ID: <key>=<value>` for each property whose key
contains `id` (case-insensitively) and whose value is an integer number or
a digits-only string. -/
def directIdNotesOf (bodyJson : Option Js) : List String :=
  match bodyJson with
  | some (Js.arr elems) =>
    if elems.length > 1 then
      (elems.drop 1).flatMap (fun element =>
        match element with
        | Js.obj fields =>
          fields.flatMap (fun kv =>
            if jsIncludes (jsLower kv.1) "id" then
              match kv.2 with
              | Js.intNum n => ["Direct ID: " ++ kv.1 ++ "=" ++ toString n]
              | Js.str s => if isAllDigits s then ["Direct ID: " ++ kv.1 ++ "=" ++ s] else []
              | _ => []
            else [])
        | _ => [])
    else []
  | _ => []

/-- Notes of the Origin/Host-mismatch rule.  `stripScheme` models
`origin.replace(scheme-anchored-regex, "")`. -/
def stripScheme (s : String) : String :=
  if jsStartsWith s "https://" then ⟨s.data.drop 8⟩
  else if jsStartsWith s "http://" then ⟨s.data.drop 7⟩
  else s

/-- Origin/Host mismatch rule of `analyzeSecurity`. -/
def originHostNotesOf (r : Request) : List String :=
  let origin := (getHeaderFirst r "Origin").map jsTrim
  let host := (getHeaderFirst r "Host").map jsTrim
  match origin, host with
  | some o, some h =>
    if o ≠ "" ∧ h ≠ "" then
      let originHost :=
        match (jsSplitChar (stripScheme o) '/').head? with
        | none => ""
        | some x => x
      if originHost ≠ "" ∧ originHost ≠ h then ["Origin/Host mismatch"] else []
    else []
  | _, _ => []

/-- Usage-history record (`ActionUsage`). -/
structure ActionUsage where
  timestamp : String
  url : String
  method : String
  statusCode : Nat
  parameters : String
  securityNotes : String
  requestId : String
deriving Repr, DecidableEq

/-- Embedding of `analyzeSecurity`, returning the ordered note list that the
source joins with a semicolon-space separator.  `usagesById` is the
usage-history mapping read for the reuse-count rule. -/
def analyzeSecurity (rt : Rt) (request : Request) (response : Response)
    (actionId : String) (parameters : String)
    (usagesById : List (String × List ActionUsage)) : List String :=
  let headerKeys := request.headers.map (fun p => jsLower p.1)
  let hasAuth := headerKeys.contains "authorization" || headerKeys.contains "cookie"
  let authNotes := if hasAuth then [] else ["No auth headers"]
  let responseBody := getTextBody response.body
  let responseLower := jsLower responseBody
  let devNotes :=
    if jsIncludes responseLower "development" || jsIncludes responseBody "__NEXT_DATA__"
    then ["Dev mode indicators"] else []
  let errNotes := if rt.errorTest responseBody then ["Error in response"] else []
  let dbNotes :=
    if ["mssql", "postgres", "mysql", "database error"].any
        (fun s => jsIncludes responseLower s)
    then ["DB mention"] else []
  let reusedCount :=
    match lookupA usagesById actionId with
    | none => 0
    | some usages => usages.length
  let reuseNotes :=
    if reusedCount > 10 then ["Action reused " ++ toString reusedCount ++ "x"] else []
  let bindNotes := if jsIncludes parameters ".bind(" then ["Potential .bind() usage"] else []
  let methodNotes := if jsUpper request.method ≠ "POST" then ["Non-POST action"] else []
  authNotes ++ containsNotesOf parameters
    ++ directIdNotesOf (safeJsonParse rt parameters)
    ++ devNotes ++ errNotes ++ dbNotes ++ originHostNotesOf request
    ++ reuseNotes ++ bindNotes ++ methodNotes

/-- One observed action execution (`ActionEntry`). -/
structure ActionEntry where
  id : Nat
  requestId : String
  method : String
  url : String
  actionId : String
  parameters : String
  requestSize : Nat
  responseSize : Nat
  statusCode : Nat
  timestamp : String
  securityNotes : String
  actionNotes : String
deriving Repr, DecidableEq

/-- One declared action found in bundle text (`DiscoveredActionInternal`). -/
structure DiscoveredActionInternal where
  actionId : String
  functionName : String
  chunkFile : String
  firstSeen : String
  chunkRequestId : String
deriving Repr, DecidableEq

/-- One classification row (`DiscoveredAction`). -/
structure DiscoveredAction where
  actionId : String
  functionName : String
  status : String
  chunkFile : String
  executedCount : Nat
  notes : String
deriving Repr, DecidableEq

/-- The module-level mutable state of the backend. -/
structure StoreState where
  actions : List ActionEntry
  actionNotesById : List (String × String)
  actionNamesById : List (String × String)
  discoveredActionsById : List (String × DiscoveredActionInternal)
  actionUsagesById : List (String × List ActionUsage)
  seenRequestIds : List String
deriving Repr, DecidableEq

/-- Observable effects sent through the Caido SDK (status / action-added /
data-changed notifications). -/
inductive Event where
  | status (s : String)
  | actionAdded (entry : ActionEntry)
  | dataChanged
deriving Repr, DecidableEq

/-- Embedding of `ensureActionNotes`: returns the resulting note text for the
identifier together with the updated note mapping. -/
def ensureActionNotes (notes names : List (String × String)) (actionId : String) :
    String × List (String × String) :=
  let existing := lookupA notes actionId
  match lookupA names actionId with
  | none =>
    match existing with
    | none => ("", notes)
    | some ex => (ex, notes)
  | some functionName =>
    let pfx := "Function: " ++ functionName
    match existing with
    | none => (pfx, insertA notes actionId pfx)
    | some ex =>
      if jsIncludes ex pfx then (ex, notes)
      else
        let updated := pfx ++ "\n" ++ ex
        (updated, insertA notes actionId updated)

/-- Embedding of `addActionEntry`: the idempotence gate on the seen-request
set, security analysis, note maintenance, invocation append, usage append,
and the action-added notification. -/
def addActionEntry (rt : Rt) (st : StoreState) (request : Request)
    (response : Response) (actionId : String) : StoreState × List Event :=
  if st.seenRequestIds.contains request.requestId then (st, [])
  else
    let seen' := st.seenRequestIds ++ [request.requestId]
    let parameters := getTextBody request.body
    let requestSize := request.rawSize
    let responseSize := response.rawSize
    let statusCode := response.statusCode
    let timestamp := response.createdAt
    let securityNotes :=
      joinNotes (analyzeSecurity rt request response actionId parameters st.actionUsagesById)
    let noteResult := ensureActionNotes st.actionNotesById st.actionNamesById actionId
    let entry : ActionEntry :=
      { id := st.actions.length + 1
        requestId := request.requestId
        method := request.method
        url := request.url
        actionId := actionId
        parameters := parameters
        requestSize := requestSize
        responseSize := responseSize
        statusCode := statusCode
        timestamp := timestamp
        securityNotes := securityNotes
        actionNotes := noteResult.1 }
    let usage : ActionUsage :=
      { timestamp := timestamp
        url := entry.url
        method := entry.method
        statusCode := statusCode
        parameters := parameters
        securityNotes := securityNotes
        requestId := request.requestId }
    let prior :=
      match lookupA st.actionUsagesById actionId with
      | none => []
      | some us => us
    let st' : StoreState :=
      { st with
        seenRequestIds := seen'
        actionNotesById := noteResult.2
        actions := st.actions ++ [entry]
        actionUsagesById := insertA st.actionUsagesById actionId (prior ++ [usage]) }
    (st', [Event.actionAdded entry])

/-- Embedding of `processRequestResponse`: skip pairs without a response or
without a usable `Next-Action` header. -/
def processRequestResponse (rt : Rt) (st : StoreState) (request : Request)
    (response : Option Response) : StoreState × List Event :=
  match response with
  | none => (st, [])
  | some resp =>
    match getNextActionIdFromRequest request with
    | none => (st, [])
    | some actionId => addActionEntry rt st request resp actionId

/-- Two-variant result type of all fallible backend endpoints. -/
inductive Result (α : Type) where
  | ok (value : α)
  | err (msg : String)
deriving Repr, DecidableEq

/-- One traversal item of the external traffic source. -/
structure Item where
  request : Request
  response : Option Response
deriving Repr, DecidableEq

/-- A value thrown by the external traffic source: either an `Error` carrying
a message or some other thrown value. -/
inductive Thrown where
  | err (msg : String)
  | other
deriving Repr, DecidableEq

/-- Message extraction of every `catch` block in the backend. -/
def messageOf : Thrown → String
  | .err m => m
  | .other => "Unknown error"

/-- Embedding of `clearAll`. -/
def clearAll (st : StoreState) : StoreState × List Event :=
  ({ st with
      actions := []
      actionUsagesById := []
      seenRequestIds := [] },
   [Event.status "Cleared", Event.dataChanged])

/-- Embedding of `setActionNote`. -/
def setActionNote (st : StoreState) (actionId note : String) : StoreState × List Event :=
  ({ st with
      actionNotesById := insertA st.actionNotesById actionId note
      actions := st.actions.map (fun a =>
        if a.actionId ≠ actionId then a else { a with actionNotes := note }) },
   [Event.dataChanged])

/-- Iteration order of a JS `Set` built from a list: first occurrences, in order. -/
def dedupKeepAux : List String → List String → List String
  | _, [] => []
  | seen, x :: xs =>
    if seen.contains x then dedupKeepAux seen xs
    else x :: dedupKeepAux (x :: seen) xs

/-- Elements of `new Set(l)` in iteration order. -/
def dedupKeep (l : List String) : List String := dedupKeepAux [] l

/-- Executed action identifiers: `new Set(actions.map(a => a.actionId))`. -/
def executedActionIdsOf (actions : List ActionEntry) : List String :=
  dedupKeep (actions.map (·.actionId))

/-- Function names of executed identifiers via the name table, dropping
falsy entries (absent names and the empty string). -/
def executedFunctionNamesOf (st : StoreState) : List String :=
  ((executedActionIdsOf st.actions).filterMap (fun id => lookupA st.actionNamesById id)).filter
    (fun v => v ≠ "")

/-- Status string computed for one declared action row. -/
def statusOfDiscovered (st : StoreState) (d : DiscoveredActionInternal) : String :=
  if (executedActionIdsOf st.actions).contains d.actionId then "Executed"
  else if (executedFunctionNamesOf st).contains d.functionName then
    "Unused (Function executed with different ID)"
  else "Never Executed"

/-- Classification row built for one declared action. -/
def mkDiscoveredRow (st : StoreState) (d : DiscoveredActionInternal) : DiscoveredAction :=
  { actionId := d.actionId
    functionName := d.functionName
    status := statusOfDiscovered st d
    chunkFile := d.chunkFile
    executedCount :=
      match lookupA st.actionUsagesById d.actionId with
      | none => 0
      | some us => us.length
    notes :=
      match lookupA st.actionNotesById d.actionId with
      | none => ""
      | some n => n }

/-- Rows of every declared action, in declaration-map iteration order. -/
def buildAllRows (st : StoreState) : List DiscoveredAction :=
  (st.discoveredActionsById.map (·.2)).map (mkDiscoveredRow st)

/-- Rows of executed identifiers absent from the declared set. -/
def buildUnknownRows (st : StoreState) : List DiscoveredAction :=
  (executedActionIdsOf st.actions).filterMap (fun executedId =>
    if (lookupA st.discoveredActionsById executedId).isSome then none
    else some
      { actionId := executedId
        functionName :=
          match lookupA st.actionNamesById executedId with
          | none => "Unknown"
          | some n => n
        status := "Executed (No source found)"
        chunkFile := "Not found"
        executedCount :=
          match lookupA st.actionUsagesById executedId with
          | none => 0
          | some us => us.length
        notes :=
          match lookupA st.actionNotesById executedId with
          | none => ""
          | some n => n })

/-- Classification view (`DiscoveryResult`). -/
structure DiscoveryResult where
  status : String
  all : List DiscoveredAction
  unused : List DiscoveredAction
  unknown : List DiscoveredAction
deriving Repr, DecidableEq

/-- Embedding of `getDiscovery`: recomputed on every read, one row per
declared action (those with status `Never Executed` are repeated in the
unused partition), plus one unknown row per executed-but-undeclared id. -/
def getDiscovery (st : StoreState) : DiscoveryResult :=
  let all := buildAllRows st
  { status := ""
    all := all
    unused := all.filter (fun r => r.status = "Never Executed")
    unknown := buildUnknownRows st }

/-- Embedding of one capture-pair step of the `findAllActions` match loop:
capture filtering, first-extraction-wins insertion into the declared set,
and name/note back-fill for identifiers without a known name. -/
def applyFindMatch (now : String) (request : Request) (chunkFile : String)
    (st : StoreState) (m : Option String × Option String) : StoreState :=
  match m with
  | (some actionId, some functionName) =>
    if actionId = "" then st
    else if functionName = "" then st
    else if jsStartsWith functionName "$" || jsStartsWith functionName "_" then st
    else
      match lookupA st.discoveredActionsById actionId with
      | some _ => st
      | none =>
        let st1 := { st with
          discoveredActionsById := insertA st.discoveredActionsById actionId
            { actionId := actionId
              functionName := functionName
              chunkFile := chunkFile
              firstSeen := now
              chunkRequestId := request.requestId } }
        match lookupA st1.actionNamesById actionId with
        | some _ => st1
        | none =>
          let st2 := { st1 with
            actionNamesById := insertA st1.actionNamesById actionId functionName }
          { st2 with
            actionNotesById :=
              (ensureActionNotes st2.actionNotesById st2.actionNamesById actionId).2 }
  | _ => st

/-- Accumulator of the `findAllActions` traversal. -/
structure FindAcc where
  store : StoreState
  chunksFound : Nat
  events : List Event
deriving Repr, DecidableEq

/-- Embedding of one traversal item of `findAllActions`. -/
def processFindItem (rt : Rt) (now : String) (acc : FindAcc) (item : Item) : FindAcc :=
  match item.response with
  | none => acc
  | some resp =>
    if !isNextChunkRequest item.request then acc
    else
      let body := getTextBody resp.body
      if !jsIncludes body "createServerReference" then acc
      else
        let chunkFile :=
          match (jsSplitChar item.request.path '/').getLast? with
          | none => "Unknown"
          | some x => x
        { acc with
          chunksFound := acc.chunksFound + 1
          store := (rt.findMatcher body).foldl
            (applyFindMatch now item.request chunkFile) acc.store }

/-- Embedding of one traversal page of `findAllActions` (progress status). -/
def findPage (rt : Rt) (now : String) (acc : FindAcc) (items : List Item) : FindAcc :=
  let acc1 := items.foldl (processFindItem rt now) acc
  { acc1 with
    events := acc1.events ++ [Event.status ("Scanning chunks... " ++ toString acc1.chunksFound)] }

/-- Embedding of `findAllActions`: reset the declared-action mapping, rebuild
it from the traversal, then derive the classification rows. -/
def findAllActions (rt : Rt) (now : String) (st : StoreState) (pages : List (List Item)) :
    StoreState × List Event × Result DiscoveryResult :=
  let st0 := { st with discoveredActionsById := [] }
  let start : FindAcc :=
    { store := st0, chunksFound := 0
      events := [Event.status "Scanning chunks for server actions..."] }
  let fin := pages.foldl (findPage rt now) start
  let st1 := fin.store
  let all := buildAllRows st1
  let unused := all.filter (fun r => r.status = "Never Executed")
  let unknown := buildUnknownRows st1
  let statusMsg :=
    "Found " ++ toString all.length ++ " actions (" ++ toString unused.length ++ " unused)"
  (st1,
   fin.events ++ [Event.status statusMsg, Event.dataChanged],
   Result.ok { status := statusMsg, all := all, unused := unused, unknown := unknown })

/-- Embedding of one capture-pair step of the `extractActionNames` match
loop: add-only name insertion (`namesExtracted` counter alongside). -/
def applyExtractMatch (acc : StoreState × Nat) (m : Option String × Option String) :
    StoreState × Nat :=
  match m with
  | (some actionId, some functionName) =>
    if actionId = "" then acc
    else if functionName = "" then acc
    else if jsStartsWith functionName "$" || jsStartsWith functionName "_" then acc
    else
      match lookupA acc.1.actionNamesById actionId with
      | some _ => acc
      | none =>
        ({ acc.1 with actionNamesById := insertA acc.1.actionNamesById actionId functionName },
         acc.2 + 1)
  | _ => acc

/-- Accumulator of the `extractActionNames` traversal. -/
structure ExtractAcc where
  store : StoreState
  scannedChunks : Nat
  namesExtracted : Nat
  events : List Event
deriving Repr, DecidableEq

/-- Embedding of one traversal item of `extractActionNames`. -/
def processExtractItem (rt : Rt) (acc : ExtractAcc) (item : Item) : ExtractAcc :=
  match item.response with
  | none => acc
  | some resp =>
    if !isNextChunkRequest item.request then acc
    else
      let body := getTextBody resp.body
      if !jsIncludes body "createServerReference" then acc
      else
        let r := (rt.extractMatcher body).foldl applyExtractMatch (acc.store, acc.namesExtracted)
        { acc with
          store := r.1
          scannedChunks := acc.scannedChunks + 1
          namesExtracted := r.2 }

/-- Embedding of one traversal page of `extractActionNames`. -/
def extractPage (rt : Rt) (acc : ExtractAcc) (items : List Item) : ExtractAcc :=
  let acc1 := items.foldl (processExtractItem rt) acc
  { acc1 with
    events := acc1.events ++
      [Event.status ("Scanning chunk files... " ++ toString acc1.scannedChunks)] }

/-- Embedding of `extractActionNames`: add-only name extraction over the
traversal, then note-prefix maintenance for every named identifier and a
refresh of the displayed note of every invocation. -/
def extractActionNames (rt : Rt) (st : StoreState) (pages : List (List Item)) :
    StoreState × List Event × Result (Nat × Nat) :=
  let start : ExtractAcc :=
    { store := st, scannedChunks := 0, namesExtracted := 0
      events := [Event.status "Scanning chunk files..."] }
  let fin := pages.foldl (extractPage rt) start
  let names := fin.store.actionNamesById
  let notes1 := (names.map (·.1)).foldl
    (fun ns aid => (ensureActionNotes ns names aid).2) fin.store.actionNotesById
  let actions1 := fin.store.actions.map (fun a =>
    match lookupA notes1 a.actionId with
    | none => a
    | some n => { a with actionNotes := n })
  let st1 := { fin.store with actionNotesById := notes1, actions := actions1 }
  (st1,
   fin.events ++ [Event.dataChanged,
     Event.status ("Extracted " ++ toString fin.namesExtracted ++ " action names ("
       ++ toString fin.scannedChunks ++ " chunks scanned)")],
   Result.ok (fin.scannedChunks, fin.namesExtracted))

/-- Accumulator of the `scanProxyHistory` traversal. -/
structure ScanAcc where
  store : StoreState
  scanned : Nat
  found : Nat
  events : List Event
deriving Repr, DecidableEq

/-- Embedding of one traversal item of `scanProxyHistory`. -/
def processScanItem (rt : Rt) (acc : ScanAcc) (item : Item) : ScanAcc :=
  let r := processRequestResponse rt acc.store item.request item.response
  { store := r.1
    scanned := acc.scanned + 1
    found :=
      if (getNextActionIdFromRequest item.request).isSome then acc.found + 1 else acc.found
    events := acc.events ++ r.2 }

/-- Page-by-page driver of `scanProxyHistory`; a page whose retrieval throws
aborts the whole scan through the surrounding `catch`. -/
def scanPagesGo (rt : Rt) (acc : ScanAcc) :
    List (Except Thrown (List Item)) → StoreState × List Event × Result (Nat × Nat)
  | [] =>
    (acc.store,
     acc.events ++ [Event.status ("Scanned " ++ toString acc.scanned ++ " requests ("
       ++ toString acc.found ++ " actions)"), Event.dataChanged],
     Result.ok (acc.scanned, acc.found))
  | Except.error t :: _ =>
    (acc.store, acc.events ++ [Event.status "Scan failed"], Result.err (messageOf t))
  | Except.ok items :: rest =>
    let acc1 := items.foldl (processScanItem rt) acc
    scanPagesGo rt
      { acc1 with
        events := acc1.events ++
          [Event.status ("Scanning requests... " ++ toString acc1.scanned)] }
      rest

/-- Embedding of `scanProxyHistory`. -/
def scanProxyHistory (rt : Rt) (st : StoreState) (pages : List (Except Thrown (List Item))) :
    StoreState × List Event × Result (Nat × Nat) :=
  scanPagesGo rt { store := st, scanned := 0, found := 0
                   events := [Event.status "Scanning requests..."] } pages

/-- Accumulator of `analyzeRequestsById`. -/
structure AnalyzeAcc where
  store : StoreState
  analyzed : Nat
  found : Nat
  events : List Event
deriving Repr, DecidableEq

/-- Embedding of one identifier step of `analyzeRequestsById`
(`lookupPair` models the point lookup `sdk.requests.get`). -/
def analyzeOneId (rt : Rt) (lookupPair : String → Option Item) (acc : AnalyzeAcc)
    (i : String) : AnalyzeAcc :=
  let analyzed := acc.analyzed + 1
  match lookupPair i with
  | none => { acc with analyzed := analyzed }
  | some item =>
    match item.response with
    | none => { acc with analyzed := analyzed }
    | some resp =>
      match getNextActionIdFromRequest item.request with
      | none => { acc with analyzed := analyzed }
      | some actionId =>
        let r := addActionEntry rt acc.store item.request resp actionId
        { store := r.1, analyzed := analyzed, found := acc.found + 1
          events := acc.events ++ r.2 }

/-- Embedding of `analyzeRequestsById`. -/
def analyzeRequestsById (rt : Rt) (lookupPair : String → Option Item) (st : StoreState)
    (ids : List String) : StoreState × List Event × Result (Nat × Nat) :=
  let fin := ids.foldl (analyzeOneId rt lookupPair)
    { store := st, analyzed := 0, found := 0, events := [] }
  (fin.store, fin.events ++ [Event.dataChanged], Result.ok (fin.analyzed, fin.found))

/-- A security finding published to the host's findings surface. -/
structure Finding where
  title : String
  description : String
  reporter : String
  dedupeKey : String
deriving Repr, DecidableEq

/-- Embedding of the live interception handler registered in `init`:
per-pair processing first, then (for pairs carrying an action id) a fresh
security analysis over the already-updated store and a finding whenever the
joined notes contain `No auth headers`. -/
def onInterceptResponse (rt : Rt) (st : StoreState) (request : Request)
    (response : Response) : StoreState × List Event × Option Finding :=
  let r := processRequestResponse rt st request (some response)
  match getNextActionIdFromRequest request with
  | none => (r.1, r.2, none)
  | some actionId =>
    let securityNotes := joinNotes
      (analyzeSecurity rt request response actionId (getTextBody request.body)
        r.1.actionUsagesById)
    if !(jsIncludes securityNotes "No auth headers") then (r.1, r.2, none)
    else
      (r.1, r.2, some
        { title := "Next.js Server Action without auth: " ++ jsTake actionId 8
          description := securityNotes
          reporter := "Next.js Actions Analyzer"
          dedupeKey := request.host ++ "-" ++ request.path ++ "-" ++ actionId })

/-! ## Generic lemmas about the association-list model of JS objects -/

/-- Lookup after assignment: the assigned key reads back the new value and
every other key is unaffected. -/
theorem lookupA_insertA {α : Type} (m : List (String × α)) (k k' : String) (v : α) :
    lookupA (insertA m k v) k' = if k = k' then some v else lookupA m k' := by
  induction m with
  | nil => simp [insertA, lookupA]
  | cons p rest ih =>
    obtain ⟨pk, pv⟩ := p
    by_cases hpk : pk = k
    · subst hpk
      by_cases hk : pk = k'
      · simp [insertA, lookupA, hk]
      · simp [insertA, lookupA, hk]
    · by_cases hk : pk = k'
      · subst hk
        have : ¬ k = pk := fun h => hpk h.symm
        simp [insertA, lookupA, hpk, this]
      · simp [insertA, lookupA, hpk, hk, ih]

/-- A successful lookup exhibits a member of the association list. -/
theorem lookupA_mem {α : Type} {m : List (String × α)} {k : String} {v : α}
    (h : lookupA m k = some v) : (k, v) ∈ m := by
  induction m with
  | nil => simp [lookupA] at h
  | cons p rest ih =>
    obtain ⟨pk, pv⟩ := p
    by_cases hpk : pk = k
    · subst hpk
      simp [lookupA] at h
      simp [h]
    · simp [lookupA, hpk] at h
      exact List.mem_cons_of_mem _ (ih h)

/-- Boolean `contains` on string lists agrees with list membership. -/
theorem containsStr_iff {l : List String} {a : String} : l.contains a = true ↔ a ∈ l :=
  List.elem_iff

/-- Membership in the set-iteration helper. -/
theorem mem_dedupKeepAux {x : String} :
    ∀ {l seen : List String}, x ∈ dedupKeepAux seen l ↔ x ∈ l ∧ ¬ x ∈ seen := by
  intro l
  induction l with
  | nil => intro seen; simp [dedupKeepAux]
  | cons y ys ih =>
    intro seen
    by_cases hy : seen.contains y = true
    · have hy' : y ∈ seen := containsStr_iff.mp hy
      have hstep : dedupKeepAux seen (y :: ys) = dedupKeepAux seen ys := by
        rw [dedupKeepAux, if_pos hy]
      rw [hstep, ih]
      constructor
      · rintro ⟨hx, hns⟩; exact ⟨List.mem_cons_of_mem _ hx, hns⟩
      · rintro ⟨hx, hns⟩
        rcases List.mem_cons.mp hx with rfl | hx
        · exact absurd hy' hns
        · exact ⟨hx, hns⟩
    · have hy' : ¬ y ∈ seen := fun h => hy (containsStr_iff.mpr h)
      have hstep : dedupKeepAux seen (y :: ys) = y :: dedupKeepAux (y :: seen) ys := by
        rw [dedupKeepAux, if_neg hy]
      rw [hstep]
      constructor
      · intro hx
        rcases List.mem_cons.mp hx with rfl | hx
        · exact ⟨List.mem_cons_self _ _, hy'⟩
        · rcases ih.mp hx with ⟨h1, h2⟩
          refine ⟨List.mem_cons_of_mem _ h1, ?_⟩
          intro hc
          exact h2 (List.mem_cons_of_mem _ hc)
      · rintro ⟨hx, hns⟩
        by_cases hxy : x = y
        · subst hxy; exact List.mem_cons_self _ _
        · have hx' : x ∈ ys := by
            rcases List.mem_cons.mp hx with rfl | hx
            · exact absurd rfl hxy
            · exact hx
          refine List.mem_cons_of_mem _ (ih.mpr ⟨hx', ?_⟩)
          intro hc
          rcases List.mem_cons.mp hc with rfl | hc
          · exact hxy rfl
          · exact hns hc

/-- Set-membership characterization of `dedupKeep`. -/
theorem mem_dedupKeep {x : String} {l : List String} : x ∈ dedupKeep l ↔ x ∈ l := by
  rw [dedupKeep, mem_dedupKeepAux]
  simp

/-! ## String-level lemmas -/

/-- First character of a string. -/
def headCh (s : String) : Option Char := s.data.head?

/-- Character data of a concatenation. -/
theorem strData_append (a b : String) : (a ++ b).data = a.data ++ b.data := by
  cases a; cases b; rfl

/-- Strings whose first characters differ are different. -/
theorem ne_of_headCh {a b : String} (h : headCh a ≠ headCh b) : a ≠ b :=
  fun e => h (congrArg headCh e)

/-! ## Concrete fixtures used by witnesses and counterexamples -/

/-- Runtime instance with trivial JSON parsing and regex matching. -/
def rt0 : Rt :=
  { jsonParse := fun _ => none
    errorTest := fun _ => false
    findMatcher := fun _ => []
    extractMatcher := fun _ => [] }

/-- The store at plugin start. -/
def emptyStore : StoreState :=
  { actions := [], actionNotesById := [], actionNamesById := []
    discoveredActionsById := [], actionUsagesById := [], seenRequestIds := [] }

/-- POST request with an action header and no auth headers. -/
def reqNoAuth : Request :=
  { requestId := "r1", method := "POST", url := "https://h/p", host := "h", path := "/p"
    headers := [("Next-Action", "deadbeefdeadbeefdeadbeefdeadbeefdeadbeef")]
    body := none, rawSize := 10 }

/-- Request whose action header is whitespace only. -/
def reqWs : Request :=
  { reqNoAuth with requestId := "r2", headers := [("Next-Action", " \t ")] }

/-- A plain response. -/
def respPlain : Response :=
  { statusCode := 200, body := none, rawSize := 5, createdAt := "t0" }

/-- Store that has already seen request `r1`. -/
def seenStore : StoreState := { emptyStore with seenRequestIds := ["r1"] }

/-- Store carrying a note, a name and a declared action. -/
def richStore : StoreState :=
  { emptyStore with
    actionNotesById := [("a", "keep me")]
    actionNamesById := [("a", "fnA")]
    discoveredActionsById :=
      [("a", { actionId := "a", functionName := "fnA", chunkFile := "c.js"
               firstSeen := "t", chunkRequestId := "q" })] }

/-! ## C1 -/

/-- One step of `analyzeRequestsById` over an already-seen request leaves
the store unchanged. -/
theorem analyzeOneId_store_of_seen (rt : Rt) (lookupPair : String → Option Item)
    (acc : AnalyzeAcc) (i : String)
    (h : ∀ item, lookupPair i = some item →
      acc.store.seenRequestIds.contains item.request.requestId = true) :
    (analyzeOneId rt lookupPair acc i).store = acc.store := by
  rcases hlp : lookupPair i with _ | item
  · simp [analyzeOneId, hlp]
  · rcases hresp : item.response with _ | resp
    · simp [analyzeOneId, hlp, hresp]
    · rcases hext : getNextActionIdFromRequest item.request with _ | actionId
      · simp [analyzeOneId, hlp, hresp, hext]
      · have hmem : item.request.requestId ∈ acc.store.seenRequestIds :=
          containsStr_iff.mp (h item hlp)
        simp [analyzeOneId, hlp, hresp, hext, addActionEntry, h item hlp, hmem]

/-- Auxiliary invariant of `analyzeRequestsById`: if every looked-up request
was already seen, the fold never changes the store. -/
theorem analyzeFold_store_fixed (rt : Rt) (lookupPair : String → Option Item)
    (st : StoreState) :
    ∀ (ids : List String) (acc : AnalyzeAcc), acc.store = st →
      (∀ i ∈ ids, ∀ item, lookupPair i = some item →
        st.seenRequestIds.contains item.request.requestId = true) →
      (ids.foldl (analyzeOneId rt lookupPair) acc).store = st := by
  intro ids
  induction ids with
  | nil => intro acc h _; simpa using h
  | cons i rest ih =>
    intro acc hacc hall
    simp only [List.foldl_cons]
    refine ih _ ?_ (fun j hj => hall j (List.mem_cons_of_mem _ hj))
    rw [analyzeOneId_store_of_seen rt lookupPair acc i ?_]
    · exact hacc
    · intro item hlp
      rw [hacc]
      exact hall i (List.mem_cons_self _ _) item hlp

/-- C1: a request identifier already present in the seen set is a no-op for
every processing path (direct entry addition, the shared per-pair routine,
and the point-lookup batch `analyzeRequestsById`): the store — invocation
list and usage histories included — is left unchanged and no invocation
event is emitted. -/
theorem claim_C1_idempotent (rt : Rt) (st : StoreState) (request : Request)
    (response : Response) (actionId : String)
    (h : st.seenRequestIds.contains request.requestId = true) :
    addActionEntry rt st request response actionId = (st, [])
    ∧ processRequestResponse rt st request (some response) = (st, [])
    ∧ ∀ (lookupPair : String → Option Item) (ids : List String),
        (∀ i ∈ ids, ∀ item, lookupPair i = some item →
          st.seenRequestIds.contains item.request.requestId = true) →
        (analyzeRequestsById rt lookupPair st ids).1 = st := by
  have hmem : request.requestId ∈ st.seenRequestIds := containsStr_iff.mp h
  have h1 : addActionEntry rt st request response actionId = (st, []) := by
    simp [addActionEntry, h, hmem]
  refine ⟨h1, ?_, ?_⟩
  · unfold processRequestResponse
    cases hext : getNextActionIdFromRequest request with
    | none => rfl
    | some aid => simp [addActionEntry, h, hmem]
  · intro lookupPair ids hall
    unfold analyzeRequestsById
    exact analyzeFold_store_fixed rt lookupPair st ids _ rfl hall

/-- C1 witness: concrete duplicate submission leaves the concrete store intact. -/
theorem claim_C1_witness :
    addActionEntry rt0 seenStore reqNoAuth respPlain "aid" = (seenStore, []) :=
  (claim_C1_idempotent rt0 seenStore reqNoAuth respPlain "aid" (by decide)).1

/-! ## C2 -/

/-- C2 counterexample: the claim asserts that after `clearAll` all four
mappings (including notes and declared actions) are empty; on a store
holding a note, `clearAll` leaves the note mapping nonempty (the code only
clears invocations, usage history and the seen set). -/
theorem claim_C2_cex :
    (clearAll richStore).1.actionNotesById ≠ []
    ∧ (clearAll richStore).1.discoveredActionsById ≠ []
    ∧ (clearAll richStore).1.actionNamesById ≠ [] := by decide

/-- C2 (amended): `clearAll` empties the invocation list, the usage-history
mapping and the seen-request-identifier set, and leaves the note, name and
declared-action mappings untouched. -/
theorem claim_C2_amended (st : StoreState) :
    (clearAll st).1.actions = []
    ∧ (clearAll st).1.actionUsagesById = []
    ∧ (clearAll st).1.seenRequestIds = []
    ∧ (clearAll st).1.actionNotesById = st.actionNotesById
    ∧ (clearAll st).1.actionNamesById = st.actionNamesById
    ∧ (clearAll st).1.discoveredActionsById = st.discoveredActionsById
    ∧ (clearAll st).2 = [Event.status "Cleared", Event.dataChanged] := by
  simp [clearAll]

/-! ## C10 -/

/-- C10: a pair with no response, and a pair whose `Next-Action` header is
missing, empty, or whitespace only, is a complete no-op for per-pair
processing: the store is unchanged and no notification is emitted. -/
theorem claim_C10_header_noop (rt : Rt) (st : StoreState) (request : Request)
    (response : Response)
    (h : ∀ v, getHeaderFirst request "Next-Action" = some v → jsTrim v = "") :
    processRequestResponse rt st request none = (st, [])
    ∧ processRequestResponse rt st request (some response) = (st, []) := by
  have hext : getNextActionIdFromRequest request = none := by
    unfold getNextActionIdFromRequest
    cases hv : getHeaderFirst request "Next-Action" with
    | none => rfl
    | some v => simp [h v hv]
  exact ⟨rfl, by unfold processRequestResponse; rw [hext]⟩

/-- C10 witness: a concrete whitespace-only `Next-Action` header is skipped. -/
theorem claim_C10_witness :
    processRequestResponse rt0 emptyStore reqWs none = (emptyStore, [])
    ∧ processRequestResponse rt0 emptyStore reqWs (some respPlain) = (emptyStore, []) :=
  claim_C10_header_noop rt0 emptyStore reqWs respPlain (by
    intro v hv
    have hfst : getHeaderFirst reqWs "Next-Action" = some " \t " := by decide
    rw [hfst] at hv
    injection hv with hv
    rw [← hv]
    decide)

/-! ## C3 -/

/-- C3 counterexample: a live-observed unauthenticated invocation emits a
finding, but its deduplication key carries the full 40-character action
identifier, not a truncated one (only the finding title truncates to 8
characters), refuting the claimed `<host>-<path>-<truncated-id>` key. -/
theorem claim_C3_cex :
    (onInterceptResponse rt0 emptyStore reqNoAuth respPlain).2.2
      = some { title := "Next.js Server Action without auth: deadbeef"
               description := "No auth headers"
               reporter := "Next.js Actions Analyzer"
               dedupeKey := "h-/p-deadbeefdeadbeefdeadbeefdeadbeefdeadbeef" }
    ∧ "h-/p-deadbeefdeadbeefdeadbeefdeadbeefdeadbeef"
        ≠ "h-/p-" ++ jsTake "deadbeefdeadbeefdeadbeefdeadbeefdeadbeef" 8 := by decide

/-- C3 (amended): the live handler emits a finding exactly when the pair
carries an action identifier and the freshly computed, semicolon-joined
security notes contain `No auth headers`; the finding's deduplication key
joins host, path and the full action identifier. -/
theorem claim_C3_finding (rt : Rt) (st : StoreState) (request : Request)
    (response : Response) :
    (onInterceptResponse rt st request response).2.2
      = (match getNextActionIdFromRequest request with
         | none => none
         | some actionId =>
           let st1 := (processRequestResponse rt st request (some response)).1
           let notesStr := joinNotes (analyzeSecurity rt request response actionId
             (getTextBody request.body) st1.actionUsagesById)
           if jsIncludes notesStr "No auth headers" then
             some { title := "Next.js Server Action without auth: " ++ jsTake actionId 8
                    description := notesStr
                    reporter := "Next.js Actions Analyzer"
                    dedupeKey := request.host ++ "-" ++ request.path ++ "-" ++ actionId }
           else none) := by
  unfold onInterceptResponse
  cases hext : getNextActionIdFromRequest request with
  | none => rfl
  | some actionId =>
    cases hinc : jsIncludes (joinNotes (analyzeSecurity rt request response actionId
        (getTextBody request.body)
        (processRequestResponse rt st request (some response)).1.actionUsagesById))
        "No auth headers" with
    | false => simp [hinc]
    | true => simp [hinc]

/-! ## C4 -/

/-- Membership in a conditional singleton. -/
theorem mem_iteCons {α : Type} {c : Prop} [Decidable c] {x a : α} :
    x ∈ (if c then [a] else []) ↔ c ∧ x = a := by
  split <;> simp_all

/-- Membership in a conditional singleton, negative form. -/
theorem mem_iteNil {α : Type} {c : Prop} [Decidable c] {x a : α} :
    x ∈ (if c then [] else [a]) ↔ ¬ c ∧ x = a := by
  split <;> simp_all

/-- First character of a reuse note. -/
theorem headCh_reuse (t : String) : headCh ("Action reused " ++ t ++ "x") = some 'A' := by
  have h : ("Action reused ").data = 'A' :: ("ction reused ").data := by decide
  simp [headCh, strData_append, h]

/-- A reuse note never equals a string starting differently. -/
theorem reuse_ne_of_headCh {t b : String} (hb : headCh b ≠ some 'A') :
    ("Action reused " ++ t ++ "x") ≠ b :=
  fun e => hb (by rw [← e]; exact headCh_reuse t)

/-- First character of a sensitive-parameter note. -/
theorem headCh_contains (d : String) : headCh ("Contains: " ++ d) = some 'C' := by
  have h : ("Contains: ").data = 'C' :: ("ontains: ").data := by decide
  simp [headCh, strData_append, h]

/-- Every direct-object-reference note starts with the letter D. -/
theorem directId_headCh {p : Option Js} {x : String} (hx : x ∈ directIdNotesOf p) :
    headCh x = some 'D' := by
  have hD : ∀ k v : String, headCh ("Direct ID: " ++ k ++ "=" ++ v) = some 'D' := by
    intro k v
    have h : ("Direct ID: ").data = 'D' :: ("irect ID: ").data := by decide
    simp [headCh, strData_append, h]
  rcases p with _ | j
  · simp [directIdNotesOf] at hx
  · cases j with
    | arr elems =>
      by_cases hlen : elems.length > 1
      · simp only [directIdNotesOf, if_pos hlen, List.mem_flatMap] at hx
        obtain ⟨element, _, hx⟩ := hx
        cases element with
        | obj fields =>
          simp only [List.mem_flatMap] at hx
          obtain ⟨kv, _, hx⟩ := hx
          by_cases hid : jsIncludes (jsLower kv.1) "id" = true
          · rw [if_pos hid] at hx
            split at hx
            · simp at hx
              rw [hx]; exact hD _ _
            · split at hx
              · simp at hx
                rw [hx]; exact hD _ _
              · simp at hx
            · simp at hx
          · rw [if_neg hid] at hx; simp at hx
        | null => simp at hx
        | bool b => simp at hx
        | intNum m => simp at hx
        | floatNum => simp at hx
        | str s => simp at hx
        | arr es => simp at hx
      · simp only [directIdNotesOf, if_neg hlen] at hx
        simp at hx
    | null => simp [directIdNotesOf] at hx
    | bool b => simp [directIdNotesOf] at hx
    | intNum m => simp [directIdNotesOf] at hx
    | floatNum => simp [directIdNotesOf] at hx
    | str s => simp [directIdNotesOf] at hx
    | obj fields => simp [directIdNotesOf] at hx

/-- Every Origin/Host-rule note is the fixed mismatch string. -/
theorem originHost_mem {r : Request} {x : String} (hx : x ∈ originHostNotesOf r) :
    x = "Origin/Host mismatch" := by
  simp only [originHostNotesOf] at hx
  split at hx
  · split at hx
    · split at hx
      · simpa using hx
      · simp at hx
    · simp at hx
  · simp at hx

/-- Recorded usage count of an action identifier
(`actionUsagesById[actionId]?.length ?? 0`). -/
def usageCount (usagesById : List (String × List ActionUsage)) (actionId : String) : Nat :=
  match lookupA usagesById actionId with
  | none => 0
  | some us => us.length

/-- The reuse note for the current usage count is in the computed note list
exactly when that count exceeds 10; no other rule can produce this note. -/
theorem reuse_note_mem_iff (rt : Rt) (request : Request) (response : Response)
    (actionId parameters : String) (usagesById : List (String × List ActionUsage)) :
    (("Action reused " ++ toString (usageCount usagesById actionId) ++ "x")
        ∈ analyzeSecurity rt request response actionId parameters usagesById)
      ↔ usageCount usagesById actionId > 10 := by
  simp only [usageCount, analyzeSecurity, List.mem_append]
  generalize (match lookupA usagesById actionId with
              | none => 0
              | some us => us.length) = cnt
  constructor
  · intro h
    rcases h with ((((((((h | h) | h) | h) | h) | h) | h) | h) | h) | h
    · rcases mem_iteNil.mp h with ⟨-, heq⟩
      exact absurd heq (reuse_ne_of_headCh (by decide))
    · simp only [containsNotesOf, List.mem_filterMap] at h
      obtain ⟨d, -, hd⟩ := h
      split at hd
      · injection hd with hd
        exact absurd hd.symm (reuse_ne_of_headCh (by rw [headCh_contains]; decide))
      · exact Option.noConfusion hd
    · have hD := directId_headCh h
      rw [headCh_reuse] at hD
      exact absurd hD (by decide)
    · rcases mem_iteCons.mp h with ⟨-, heq⟩
      exact absurd heq (reuse_ne_of_headCh (by decide))
    · rcases mem_iteCons.mp h with ⟨-, heq⟩
      exact absurd heq (reuse_ne_of_headCh (by decide))
    · rcases mem_iteCons.mp h with ⟨-, heq⟩
      exact absurd heq (reuse_ne_of_headCh (by decide))
    · have heq := originHost_mem h
      exact absurd heq (reuse_ne_of_headCh (by decide))
    · exact (mem_iteCons.mp h).1
    · rcases mem_iteCons.mp h with ⟨-, heq⟩
      exact absurd heq (reuse_ne_of_headCh (by decide))
    · rcases mem_iteCons.mp h with ⟨-, heq⟩
      exact absurd heq (reuse_ne_of_headCh (by decide))
  · intro hgt
    have hm : ("Action reused " ++ toString cnt ++ "x")
        ∈ (if cnt > 10 then ["Action reused " ++ toString cnt ++ "x"] else []) := by
      rw [if_pos hgt]; exact List.mem_singleton_self _
    exact Or.inl (Or.inl (Or.inr hm))

/-- C4: for a fresh request, the created invocation's stored notes are the
join of the list computed from the usage history *before* the new usage
record is appended (so the count excludes the invocation being analyzed),
that list contains `Action reused <n>x` exactly when the prior count `n`
exceeds 10, and afterwards the recorded count is `n + 1`. -/
theorem claim_C4_reuse_note (rt : Rt) (st : StoreState) (request : Request)
    (response : Response) (actionId : String)
    (hfresh : st.seenRequestIds.contains request.requestId = false) :
    ∃ entry : ActionEntry,
      (addActionEntry rt st request response actionId).2 = [Event.actionAdded entry]
      ∧ entry ∈ (addActionEntry rt st request response actionId).1.actions
      ∧ entry.securityNotes = joinNotes (analyzeSecurity rt request response actionId
          (getTextBody request.body) st.actionUsagesById)
      ∧ ((("Action reused " ++ toString (usageCount st.actionUsagesById actionId) ++ "x")
            ∈ analyzeSecurity rt request response actionId (getTextBody request.body)
                st.actionUsagesById)
          ↔ usageCount st.actionUsagesById actionId > 10)
      ∧ usageCount (addActionEntry rt st request response actionId).1.actionUsagesById
            actionId
          = usageCount st.actionUsagesById actionId + 1 := by
  have hno : ¬ request.requestId ∈ st.seenRequestIds := by
    intro hm
    rw [containsStr_iff.mpr hm] at hfresh
    exact Bool.noConfusion hfresh
  simp only [addActionEntry, hfresh, Bool.false_eq_true, if_false, containsStr_iff,
    hno, if_neg, not_false_iff]
  refine ⟨_, rfl, ?_, rfl, reuse_note_mem_iff rt request response actionId
    (getTextBody request.body) st.actionUsagesById, ?_⟩
  · exact List.mem_append_right _ (List.mem_singleton_self _)
  · simp only [usageCount, lookupA_insertA, if_pos rfl]
    cases hl : lookupA st.actionUsagesById actionId <;> simp [hl]

/-- C4 witness: concrete fresh invocation whose identifier has no prior
usage; the reuse note is absent and the count becomes one. -/
theorem claim_C4_witness :
    ∃ entry : ActionEntry,
      (addActionEntry rt0 emptyStore reqNoAuth respPlain "a").2 = [Event.actionAdded entry]
      ∧ entry ∈ (addActionEntry rt0 emptyStore reqNoAuth respPlain "a").1.actions
      ∧ entry.securityNotes = joinNotes (analyzeSecurity rt0 reqNoAuth respPlain "a"
          (getTextBody reqNoAuth.body) emptyStore.actionUsagesById)
      ∧ ((("Action reused " ++ toString (usageCount emptyStore.actionUsagesById "a") ++ "x")
            ∈ analyzeSecurity rt0 reqNoAuth respPlain "a" (getTextBody reqNoAuth.body)
                emptyStore.actionUsagesById)
          ↔ usageCount emptyStore.actionUsagesById "a" > 10)
      ∧ usageCount (addActionEntry rt0 emptyStore reqNoAuth respPlain "a").1.actionUsagesById
            "a"
          = usageCount emptyStore.actionUsagesById "a" + 1 :=
  claim_C4_reuse_note rt0 emptyStore reqNoAuth respPlain "a" (by decide)

/-! ## C5 -/

/-- The capture filter of both match loops: a pair is admitted when both
captures are present and nonempty and the name is not bundler-internal. -/
def matchedPair (m : Option String × Option String) : Option (String × String) :=
  match m with
  | (some actionId, some functionName) =>
    if actionId = "" then none
    else if functionName = "" then none
    else if jsStartsWith functionName "$" || jsStartsWith functionName "_" then none
    else some (actionId, functionName)
  | _ => none

/-- Admitted `(id, name)` pairs a single traversal item contributes to the
full discovery pass, in match order. -/
def itemPairsFind (rt : Rt) (item : Item) : List (String × String) :=
  match item.response with
  | none => []
  | some resp =>
    if !isNextChunkRequest item.request then []
    else
      let body := getTextBody resp.body
      if !jsIncludes body "createServerReference" then []
      else (rt.findMatcher body).filterMap matchedPair

/-- Admitted pairs of the whole traversal, in traversal order. -/
def pagesPairsFind (rt : Rt) (pages : List (List Item)) : List (String × String) :=
  pages.flatMap (fun items => items.flatMap (itemPairsFind rt))

/-- Name of the first pair carrying the given identifier. -/
def firstNameFor (pairs : List (String × String)) (aid : String) : Option String :=
  (pairs.find? (fun p => p.1 == aid)).map (·.2)

/-- Declared function name currently stored for an identifier. -/
def discNameOf (st : StoreState) (aid : String) : Option String :=
  (lookupA st.discoveredActionsById aid).map (·.functionName)

/-- Left-biased choice on options (JS `??`). -/
def oElse {α : Type} (a b : Option α) : Option α :=
  match a with
  | some x => some x
  | none => b

/-- Choice with an empty right side. -/
theorem oElse_none_right {α : Type} (a : Option α) : oElse a none = a := by
  cases a <;> rfl

/-- Choice is associative. -/
theorem oElse_assoc {α : Type} (a b c : Option α) :
    oElse (oElse a b) c = oElse a (oElse b c) := by
  cases a <;> rfl

/-- First-name lookup distributes over concatenation. -/
theorem firstNameFor_append (l1 l2 : List (String × String)) (aid : String) :
    firstNameFor (l1 ++ l2) aid = oElse (firstNameFor l1 aid) (firstNameFor l2 aid) := by
  simp only [firstNameFor, List.find?_append]
  cases List.find? (fun p => p.1 == aid) l1 <;> simp [oElse, Option.or]

/-- Effect of one capture pair on the declared name of one identifier:
existing entries win, otherwise an admitted pair for this identifier is
stored. -/
theorem discNameOf_applyFindMatch (now : String) (request : Request) (chunkFile : String)
    (st : StoreState) (m : Option String × Option String) (aid : String) :
    discNameOf (applyFindMatch now request chunkFile st m) aid
      = oElse (discNameOf st aid)
          (match matchedPair m with
           | none => none
           | some p => if p.1 = aid then some p.2 else none) := by
  rcases m with ⟨ma, mf⟩
  cases ma with
  | none => simp [applyFindMatch, matchedPair, oElse_none_right]
  | some a =>
    cases mf with
    | none => simp [applyFindMatch, matchedPair, oElse_none_right]
    | some f =>
      by_cases ha : a = ""
      · simp [applyFindMatch, matchedPair, ha, oElse_none_right]
      · by_cases hf : f = ""
        · simp [applyFindMatch, matchedPair, ha, hf, oElse_none_right]
        · by_cases hsw : (jsStartsWith f "$" || jsStartsWith f "_") = true
          · simp [applyFindMatch, matchedPair, ha, hf, hsw, oElse_none_right]
          · cases hex : lookupA st.discoveredActionsById a with
            | some d =>
              by_cases haid : a = aid
              · subst haid
                simp [applyFindMatch, matchedPair, ha, hf, hsw, hex, discNameOf, oElse]
              · simp only [applyFindMatch, matchedPair, ha, hf, hsw, hex, discNameOf,
                  oElse, haid, if_neg, ite_false]
                simp [ha, hf, hsw, haid]
                cases lookupA st.discoveredActionsById aid <;> rfl
            | none =>
              cases hnm : lookupA st.actionNamesById a with
              | some n =>
                by_cases haid : a = aid
                · subst haid
                  simp [applyFindMatch, matchedPair, ha, hf, hsw, hex, hnm, discNameOf,
                    oElse, lookupA_insertA]
                · simp [applyFindMatch, matchedPair, ha, hf, hsw, hex, hnm, discNameOf,
                    oElse, lookupA_insertA, haid, oElse_none_right]
                  cases lookupA st.discoveredActionsById aid <;> rfl
              | none =>
                by_cases haid : a = aid
                · subst haid
                  simp [applyFindMatch, matchedPair, ha, hf, hsw, hex, hnm, discNameOf,
                    oElse, lookupA_insertA]
                · simp [applyFindMatch, matchedPair, ha, hf, hsw, hex, hnm, discNameOf,
                    oElse, lookupA_insertA, haid, oElse_none_right]
                  cases lookupA st.discoveredActionsById aid <;> rfl

/-- Effect of one chunk body's capture list on the declared name of one
identifier. -/
theorem discNameOf_foldl_matches (now : String) (request : Request) (chunkFile : String)
    (aid : String) :
    ∀ (ms : List (Option String × Option String)) (st : StoreState),
      discNameOf (ms.foldl (applyFindMatch now request chunkFile) st) aid
        = oElse (discNameOf st aid) (firstNameFor (ms.filterMap matchedPair) aid) := by
  intro ms
  induction ms with
  | nil => intro st; simp [firstNameFor, oElse_none_right]
  | cons m rest ih =>
    intro st
    simp only [List.foldl_cons]
    rw [ih, discNameOf_applyFindMatch, oElse_assoc]
    congr 1
    cases hm : matchedPair m with
    | none => simp [List.filterMap_cons, hm, oElse]
    | some p =>
      simp only [List.filterMap_cons, hm]
      by_cases hp : p.1 = aid
      · simp [firstNameFor, List.find?_cons, hp, oElse]
      · simp [firstNameFor, List.find?_cons, hp, oElse]

/-- Effect of one traversal item on the declared name of one identifier. -/
theorem discNameOf_processFindItem (rt : Rt) (now : String) (acc : FindAcc) (item : Item)
    (aid : String) :
    discNameOf (processFindItem rt now acc item).store aid
      = oElse (discNameOf acc.store aid) (firstNameFor (itemPairsFind rt item) aid) := by
  rcases hresp : item.response with _ | resp
  · simp [processFindItem, itemPairsFind, hresp, firstNameFor, oElse_none_right]
  · cases hchunk : isNextChunkRequest item.request with
    | false =>
      simp [processFindItem, itemPairsFind, hresp, hchunk, firstNameFor, oElse_none_right]
    | true =>
      cases hinc : jsIncludes (getTextBody resp.body) "createServerReference" with
      | false =>
        simp [processFindItem, itemPairsFind, hresp, hchunk, hinc, firstNameFor,
          oElse_none_right]
      | true =>
        simp only [processFindItem, itemPairsFind, hresp, hchunk, hinc, Bool.not_true,
          Bool.false_eq_true, if_false, Bool.not_false, Bool.true_eq_false]
        exact discNameOf_foldl_matches now item.request _ aid (rt.findMatcher _) acc.store

/-- Effect of one traversal item list on the declared name of one identifier. -/
theorem discNameOf_foldl_items (rt : Rt) (now : String) (aid : String) :
    ∀ (items : List Item) (acc : FindAcc),
      discNameOf (items.foldl (processFindItem rt now) acc).store aid
        = oElse (discNameOf acc.store aid)
            (firstNameFor (items.flatMap (itemPairsFind rt)) aid) := by
  intro items
  induction items with
  | nil => intro acc; simp [firstNameFor, oElse_none_right]
  | cons item rest ih =>
    intro acc
    simp only [List.foldl_cons, List.flatMap_cons]
    rw [ih, discNameOf_processFindItem, firstNameFor_append, oElse_assoc]

/-- Effect of the whole paged traversal on the declared name of one
identifier. -/
theorem discNameOf_foldl_pages (rt : Rt) (now : String) (aid : String) :
    ∀ (pages : List (List Item)) (acc : FindAcc),
      discNameOf (pages.foldl (findPage rt now) acc).store aid
        = oElse (discNameOf acc.store aid)
            (firstNameFor (pagesPairsFind rt pages) aid) := by
  intro pages
  induction pages with
  | nil => intro acc; simp [pagesPairsFind, firstNameFor, oElse_none_right]
  | cons items rest ih =>
    intro acc
    simp only [List.foldl_cons, pagesPairsFind, List.flatMap_cons]
    rw [ih]
    have hpage : discNameOf (findPage rt now acc items).store aid
        = oElse (discNameOf acc.store aid)
            (firstNameFor (items.flatMap (itemPairsFind rt)) aid) := by
      show discNameOf (items.foldl (processFindItem rt now) acc).store aid = _
      exact discNameOf_foldl_items rt now aid items acc
    rw [hpage, firstNameFor_append, oElse_assoc]
    rfl

/-- C5: after a full discovery pass the declared function name of every
identifier is exactly the name of the first admitted capture for that
identifier in the pass's own traversal order; identifiers without such a
capture have no declared entry at all, so nothing from any earlier pass
survives (the right-hand side does not depend on the starting store). -/
theorem claim_C5_find_replaces (rt : Rt) (now : String) (st : StoreState)
    (pages : List (List Item)) (aid : String) :
    discNameOf (findAllActions rt now st pages).1 aid
      = firstNameFor (pagesPairsFind rt pages) aid := by
  show discNameOf (pages.foldl (findPage rt now)
      { store := { st with discoveredActionsById := [] }, chunksFound := 0
        events := [Event.status "Scanning chunks for server actions..."] }).store aid = _
  rw [discNameOf_foldl_pages]
  simp [discNameOf, lookupA, oElse]

/-! ## C6 -/

/-- Generic preservation of a predicate along a left fold. -/
theorem foldl_preserve {α β : Type} (f : α → β → α) (P : α → Prop)
    (hf : ∀ a b, P a → P (f a b)) : ∀ (l : List β) (a : α), P a → P (l.foldl f a) := by
  intro l
  induction l with
  | nil => intro a h; exact h
  | cons b rest ih => intro a h; exact ih _ (hf a b h)

/-- An extraction step never touches the declared-action mapping. -/
theorem applyExtractMatch_discovered (acc : StoreState × Nat)
    (m : Option String × Option String) :
    (applyExtractMatch acc m).1.discoveredActionsById = acc.1.discoveredActionsById := by
  rcases m with ⟨ma, mf⟩
  cases ma with
  | none => rfl
  | some a =>
    cases mf with
    | none => rfl
    | some f =>
      simp only [applyExtractMatch]
      split_ifs
      · rfl
      · rfl
      · rfl
      · cases lookupA acc.1.actionNamesById a <;> rfl

/-- An extraction step preserves every already-stored function name. -/
theorem applyExtractMatch_names (acc : StoreState × Nat)
    (m : Option String × Option String) (aid n : String)
    (h : lookupA acc.1.actionNamesById aid = some n) :
    lookupA (applyExtractMatch acc m).1.actionNamesById aid = some n := by
  rcases m with ⟨ma, mf⟩
  cases ma with
  | none => exact h
  | some a =>
    cases mf with
    | none => exact h
    | some f =>
      simp only [applyExtractMatch]
      split_ifs
      · exact h
      · exact h
      · exact h
      · cases hl : lookupA acc.1.actionNamesById a with
        | some existing => exact h
        | none =>
          show lookupA (insertA acc.1.actionNamesById a f) aid = some n
          rw [lookupA_insertA]
          by_cases haid : a = aid
          · subst haid; rw [hl] at h; exact Option.noConfusion h
          · rw [if_neg haid]; exact h

/-- A traversal item of the extraction pass never touches the declared
mapping and preserves every stored name. -/
theorem processExtractItem_pres (rt : Rt) (item : Item) (aid n : String)
    (acc : ExtractAcc) :
    ((processExtractItem rt acc item).store.discoveredActionsById
      = acc.store.discoveredActionsById)
    ∧ (lookupA acc.store.actionNamesById aid = some n →
       lookupA (processExtractItem rt acc item).store.actionNamesById aid = some n) := by
  rcases hresp : item.response with _ | resp
  · simp [processExtractItem, hresp]
  · cases hchunk : isNextChunkRequest item.request with
    | false => simp [processExtractItem, hresp, hchunk]
    | true =>
      cases hinc : jsIncludes (getTextBody resp.body) "createServerReference" with
      | false => simp [processExtractItem, hresp, hchunk, hinc]
      | true =>
        simp only [processExtractItem, hresp, hchunk, hinc, Bool.not_true,
          Bool.false_eq_true, if_false, Bool.not_false, Bool.true_eq_false]
        constructor
        · have h := foldl_preserve (applyExtractMatch)
            (fun p : StoreState × Nat =>
              p.1.discoveredActionsById = acc.store.discoveredActionsById)
            (fun p m hp => by
              show (applyExtractMatch p m).1.discoveredActionsById = _
              rw [applyExtractMatch_discovered]; exact hp)
            (rt.extractMatcher (getTextBody resp.body)) (acc.store, acc.namesExtracted) rfl
          exact h
        · intro hn
          have h := foldl_preserve (applyExtractMatch)
            (fun p : StoreState × Nat => lookupA p.1.actionNamesById aid = some n)
            (fun p m hp => applyExtractMatch_names p m aid n hp)
            (rt.extractMatcher (getTextBody resp.body)) (acc.store, acc.namesExtracted) hn
          exact h

/-- C6: an incremental name-extraction pass leaves the declared-action
mapping byte-identical and never overwrites an already-stored function
name, whatever the pass captures. -/
theorem claim_C6_extract_addOnly (rt : Rt) (st : StoreState) (pages : List (List Item)) :
    (extractActionNames rt st pages).1.discoveredActionsById = st.discoveredActionsById
    ∧ ∀ aid n, lookupA st.actionNamesById aid = some n →
        lookupA (extractActionNames rt st pages).1.actionNamesById aid = some n := by
  constructor
  · show (pages.foldl (extractPage rt)
        { store := st, scannedChunks := 0, namesExtracted := 0
          events := [Event.status "Scanning chunk files..."] }).store.discoveredActionsById
      = st.discoveredActionsById
    exact foldl_preserve (extractPage rt)
      (fun acc : ExtractAcc => acc.store.discoveredActionsById = st.discoveredActionsById)
      (fun acc items hp => by
        show (items.foldl (processExtractItem rt) acc).store.discoveredActionsById = _
        exact foldl_preserve (processExtractItem rt)
          (fun a : ExtractAcc => a.store.discoveredActionsById = st.discoveredActionsById)
          (fun a item ha => by
            show (processExtractItem rt a item).store.discoveredActionsById = _
            rw [(processExtractItem_pres rt item "" "" a).1]; exact ha)
          items acc hp)
      pages _ rfl
  · intro aid n hn
    show lookupA (pages.foldl (extractPage rt)
        { store := st, scannedChunks := 0, namesExtracted := 0
          events := [Event.status "Scanning chunk files..."] }).store.actionNamesById aid
      = some n
    exact foldl_preserve (extractPage rt)
      (fun acc : ExtractAcc => lookupA acc.store.actionNamesById aid = some n)
      (fun acc items hp => by
        show lookupA (items.foldl (processExtractItem rt) acc).store.actionNamesById aid
          = some n
        exact foldl_preserve (processExtractItem rt)
          (fun a : ExtractAcc => lookupA a.store.actionNamesById aid = some n)
          (fun a item ha => (processExtractItem_pres rt item aid n a).2 ha)
          items acc hp)
      pages _ hn

/-- C6 witness: a pass that captures a different name for an already-named
identifier leaves the stored name intact. -/
theorem claim_C6_witness :
    (extractActionNames
        { rt0 with extractMatcher := fun _ => [(some "a", some "bar")] }
        { emptyStore with actionNamesById := [("a", "foo")] }
        [[{ request := { reqNoAuth with
              path := "/_next/static/chunks/x.js", headers := [] }
            response := some { respPlain with body := some "createServerReference" } }]]).1.discoveredActionsById
      = ({ emptyStore with actionNamesById := [("a", "foo")] } : StoreState).discoveredActionsById
    ∧ lookupA (extractActionNames
        { rt0 with extractMatcher := fun _ => [(some "a", some "bar")] }
        { emptyStore with actionNamesById := [("a", "foo")] }
        [[{ request := { reqNoAuth with
              path := "/_next/static/chunks/x.js", headers := [] }
            response := some { respPlain with body := some "createServerReference" } }]]).1.actionNamesById
        "a" = some "foo" :=
  ⟨(claim_C6_extract_addOnly _ _ _).1,
   (claim_C6_extract_addOnly _ _ _).2 "a" "foo" (by decide)⟩

/-! ## C7 -/

/-- Does the store hold at least one invocation of this identifier? -/
def hasInvocation (st : StoreState) (aid : String) : Prop :=
  ∃ e ∈ st.actions, e.actionId = aid

/-- Membership in the executed-identifier set is exactly having an
invocation. -/
theorem mem_executedIds {st : StoreState} {aid : String} :
    aid ∈ executedActionIdsOf st.actions ↔ hasInvocation st aid := by
  unfold executedActionIdsOf hasInvocation
  rw [mem_dedupKeep, List.mem_map]

/-- Membership in the executed-function-name set, for stores whose name
table never stores the empty string. -/
theorem mem_executedFnNames {st : StoreState} {fn : String}
    (hn : ∀ p ∈ st.actionNamesById, p.2 ≠ "") :
    fn ∈ executedFunctionNamesOf st
      ↔ ∃ aid, hasInvocation st aid ∧ lookupA st.actionNamesById aid = some fn := by
  unfold executedFunctionNamesOf
  rw [List.mem_filter, List.mem_filterMap]
  constructor
  · rintro ⟨⟨aid, hmem, hlk⟩, -⟩
    exact ⟨aid, mem_executedIds.mp hmem, hlk⟩
  · rintro ⟨aid, hinv, hlk⟩
    have hne : fn ≠ "" := hn (aid, fn) (lookupA_mem hlk)
    exact ⟨⟨aid, mem_executedIds.mpr hinv, hlk⟩, by simp [hne]⟩

/-- Case analysis of the status string of one declared row. -/
theorem statusOf_cases (st : StoreState) (d : DiscoveredActionInternal)
    (hn : ∀ p ∈ st.actionNamesById, p.2 ≠ "") :
    (statusOfDiscovered st d = "Executed" ↔ hasInvocation st d.actionId)
    ∧ (statusOfDiscovered st d = "Unused (Function executed with different ID)"
        ↔ (¬ hasInvocation st d.actionId ∧ ∃ aid, hasInvocation st aid
            ∧ lookupA st.actionNamesById aid = some d.functionName))
    ∧ (statusOfDiscovered st d = "Never Executed"
        ↔ (¬ hasInvocation st d.actionId ∧ ¬ ∃ aid, hasInvocation st aid
            ∧ lookupA st.actionNamesById aid = some d.functionName)) := by
  have hexec : (executedActionIdsOf st.actions).contains d.actionId = true
      ↔ hasInvocation st d.actionId := containsStr_iff.trans mem_executedIds
  have hcoll : (executedFunctionNamesOf st).contains d.functionName = true
      ↔ ∃ aid, hasInvocation st aid
          ∧ lookupA st.actionNamesById aid = some d.functionName :=
    containsStr_iff.trans (mem_executedFnNames hn)
  unfold statusOfDiscovered
  by_cases h1 : (executedActionIdsOf st.actions).contains d.actionId = true
  · rw [if_pos h1]
    refine ⟨iff_of_true rfl (hexec.mp h1),
      iff_of_false (by decide) (fun h => h.1 (hexec.mp h1)),
      iff_of_false (by decide) (fun h => h.1 (hexec.mp h1))⟩
  · rw [if_neg h1]
    have hni : ¬ hasInvocation st d.actionId := fun hi => h1 (hexec.mpr hi)
    by_cases h2 : (executedFunctionNamesOf st).contains d.functionName = true
    · rw [if_pos h2]
      exact ⟨iff_of_false (by decide) hni,
        iff_of_true rfl ⟨hni, hcoll.mp h2⟩,
        iff_of_false (by decide) (fun h => h.2 (hcoll.mp h2))⟩
    · rw [if_neg h2]
      have hnc : ¬ ∃ aid, hasInvocation st aid
          ∧ lookupA st.actionNamesById aid = some d.functionName :=
        fun he => h2 (hcoll.mpr he)
      exact ⟨iff_of_false (by decide) hni,
        iff_of_false (by decide) (fun h => hnc h.2),
        iff_of_true rfl ⟨hni, hnc⟩⟩

/-- C7: the classification view partitions as specified.  For stores whose
name table never stores an empty name: every declared action yields a row in
the `all` partition whose status is "Executed" exactly when the identifier
has an invocation, "Unused (Function executed with different ID)" exactly
when it has none but its function name is the stored name of some executed
identifier, and "Never Executed" otherwise; a declared row sits in the
`unused` partition exactly when its status is "Never Executed"; and the
`unknown` partition holds exactly the executed identifiers absent from the
declared mapping, each with status "Executed (No source found)". -/
theorem claim_C7_classification (st : StoreState)
    (hn : ∀ p ∈ st.actionNamesById, p.2 ≠ "") :
    (∀ d ∈ st.discoveredActionsById.map (fun p => p.2),
        mkDiscoveredRow st d ∈ (getDiscovery st).all
        ∧ ((mkDiscoveredRow st d).status = "Executed" ↔ hasInvocation st d.actionId)
        ∧ ((mkDiscoveredRow st d).status = "Unused (Function executed with different ID)"
            ↔ (¬ hasInvocation st d.actionId ∧ ∃ aid, hasInvocation st aid
                ∧ lookupA st.actionNamesById aid = some d.functionName))
        ∧ ((mkDiscoveredRow st d).status = "Never Executed"
            ↔ (¬ hasInvocation st d.actionId ∧ ¬ ∃ aid, hasInvocation st aid
                ∧ lookupA st.actionNamesById aid = some d.functionName))
        ∧ (mkDiscoveredRow st d ∈ (getDiscovery st).unused
            ↔ (mkDiscoveredRow st d).status = "Never Executed"))
    ∧ (∀ aid, (∃ r ∈ (getDiscovery st).unknown, r.actionId = aid)
        ↔ (hasInvocation st aid ∧ lookupA st.discoveredActionsById aid = none))
    ∧ (∀ r ∈ (getDiscovery st).unknown, r.status = "Executed (No source found)") := by
  refine ⟨?_, ?_, ?_⟩
  · intro d hd
    obtain ⟨h1, h2, h3⟩ := statusOf_cases st d hn
    have hall : mkDiscoveredRow st d ∈ (getDiscovery st).all :=
      List.mem_map_of_mem _ hd
    refine ⟨hall, h1, h2, h3, ?_⟩
    show mkDiscoveredRow st d ∈ (buildAllRows st).filter _ ↔ _
    rw [List.mem_filter]
    constructor
    · rintro ⟨-, hp⟩
      simpa using hp
    · intro hp
      exact ⟨hall, by simpa using hp⟩
  · intro aid
    constructor
    · rintro ⟨r, hr, rfl⟩
      show hasInvocation st r.actionId ∧ _
      simp only [getDiscovery, buildUnknownRows, List.mem_filterMap] at hr
      obtain ⟨execId, hmem, hf⟩ := hr
      by_cases hs : (lookupA st.discoveredActionsById execId).isSome
      · rw [if_pos hs] at hf
        exact Option.noConfusion hf
      · rw [if_neg hs] at hf
        injection hf with hf
        have hlk : lookupA st.discoveredActionsById execId = none :=
          Option.not_isSome_iff_eq_none.mp hs
        have hid : r.actionId = execId := by rw [← hf]
        rw [hid]
        exact ⟨mem_executedIds.mp hmem, hlk⟩
    · rintro ⟨hinv, hnone⟩
      have hs : ¬ (lookupA st.discoveredActionsById aid).isSome := by
        rw [hnone]; simp
      refine ⟨{ actionId := aid
                functionName :=
                  match lookupA st.actionNamesById aid with
                  | none => "Unknown"
                  | some n => n
                status := "Executed (No source found)"
                chunkFile := "Not found"
                executedCount :=
                  match lookupA st.actionUsagesById aid with
                  | none => 0
                  | some us => us.length
                notes :=
                  match lookupA st.actionNotesById aid with
                  | none => ""
                  | some n => n }, ?_, rfl⟩
      show _ ∈ buildUnknownRows st
      rw [buildUnknownRows, List.mem_filterMap]
      exact ⟨aid, mem_executedIds.mpr hinv, by rw [if_neg hs]⟩
  · intro r hr
    simp only [getDiscovery, buildUnknownRows, List.mem_filterMap] at hr
    obtain ⟨execId, -, hf⟩ := hr
    by_cases hs : (lookupA st.discoveredActionsById execId).isSome
    · rw [if_pos hs] at hf
      exact Option.noConfusion hf
    · rw [if_neg hs] at hf
      injection hf with hf
      rw [← hf]

/-- Store with two declared actions sharing the function name `checkout`
(only `X` executed) and an executed but undeclared identifier `Z`. -/
def storeC7 : StoreState :=
  { actions :=
      [{ id := 1, requestId := "r1", method := "POST", url := "u", actionId := "X"
         parameters := "", requestSize := 0, responseSize := 0, statusCode := 200
         timestamp := "t", securityNotes := "", actionNotes := "" },
       { id := 2, requestId := "r2", method := "POST", url := "u", actionId := "Z"
         parameters := "", requestSize := 0, responseSize := 0, statusCode := 200
         timestamp := "t", securityNotes := "", actionNotes := "" }]
    actionNotesById := []
    actionNamesById := [("X", "checkout")]
    discoveredActionsById :=
      [("X", { actionId := "X", functionName := "checkout", chunkFile := "c.js"
               firstSeen := "t", chunkRequestId := "q1" }),
       ("Y", { actionId := "Y", functionName := "checkout", chunkFile := "c.js"
               firstSeen := "t", chunkRequestId := "q2" })]
    actionUsagesById := []
    seenRequestIds := ["r1", "r2"] }

/-- C7 witness: the partition characterization applied to the spec's
name-collision and unknown-identifier example store. -/
theorem claim_C7_witness :
    (∀ d ∈ storeC7.discoveredActionsById.map (fun p => p.2),
        mkDiscoveredRow storeC7 d ∈ (getDiscovery storeC7).all
        ∧ ((mkDiscoveredRow storeC7 d).status = "Executed"
            ↔ hasInvocation storeC7 d.actionId)
        ∧ ((mkDiscoveredRow storeC7 d).status
              = "Unused (Function executed with different ID)"
            ↔ (¬ hasInvocation storeC7 d.actionId ∧ ∃ aid, hasInvocation storeC7 aid
                ∧ lookupA storeC7.actionNamesById aid = some d.functionName))
        ∧ ((mkDiscoveredRow storeC7 d).status = "Never Executed"
            ↔ (¬ hasInvocation storeC7 d.actionId ∧ ¬ ∃ aid, hasInvocation storeC7 aid
                ∧ lookupA storeC7.actionNamesById aid = some d.functionName))
        ∧ (mkDiscoveredRow storeC7 d ∈ (getDiscovery storeC7).unused
            ↔ (mkDiscoveredRow storeC7 d).status = "Never Executed"))
    ∧ (∀ aid, (∃ r ∈ (getDiscovery storeC7).unknown, r.actionId = aid)
        ↔ (hasInvocation storeC7 aid ∧ lookupA storeC7.discoveredActionsById aid = none))
    ∧ (∀ r ∈ (getDiscovery storeC7).unknown,
        r.status = "Executed (No source found)") :=
  claim_C7_classification storeC7 (by decide)

/-! ## C8 -/

/-- Number of lines of `s` equal to `pfxStr` (lines split on newline). -/
def lineCount (s pfxStr : String) : Nat :=
  ((jsSplitCharAux '\n' s.data).filter (fun l => l = pfxStr.data)).length

/-- Splitting never yields the empty list of segments. -/
theorem splitAux_ne_nil (c : Char) : ∀ (l : List Char), jsSplitCharAux c l ≠ [] := by
  intro l
  cases l with
  | nil => simp [jsSplitCharAux]
  | cons x xs =>
    simp only [jsSplitCharAux]
    by_cases hx : x = c
    · simp [hx]
    · simp only [hx, if_false]
      cases jsSplitCharAux c xs <;> simp

/-- Splitting a separator-free list yields that list alone. -/
theorem splitAux_no_sep (c : Char) :
    ∀ (l : List Char), ¬ c ∈ l → jsSplitCharAux c l = [l] := by
  intro l
  induction l with
  | nil => intro _; rfl
  | cons x xs ih =>
    intro hmem
    have hx : ¬ x = c := fun he => hmem (he ▸ List.mem_cons_self _ _)
    have hxs : ¬ c ∈ xs := fun hc => hmem (List.mem_cons_of_mem _ hc)
    simp only [jsSplitCharAux, hx, if_false, ih hxs]

/-- Splitting around the first separator after a separator-free head. -/
theorem splitAux_append (c : Char) :
    ∀ (a b : List Char), ¬ c ∈ a →
      jsSplitCharAux c (a ++ c :: b) = a :: jsSplitCharAux c b := by
  intro a
  induction a with
  | nil => intro b _; simp [jsSplitCharAux]
  | cons x a' ih =>
    intro b hmem
    have hx : ¬ x = c := fun he => hmem (he ▸ List.mem_cons_self _ _)
    have ha' : ¬ c ∈ a' := fun hc => hmem (List.mem_cons_of_mem _ hc)
    simp [List.cons_append, jsSplitCharAux, hx, ih b ha']

/-- The first segment of a split is a prefix of the input; every segment is
an infix of the input. -/
theorem splitAux_parts (c : Char) : ∀ (cs : List Char),
    (∀ h t, jsSplitCharAux c cs = h :: t → h <+: cs)
    ∧ (∀ l, l ∈ jsSplitCharAux c cs → l <:+: cs) := by
  intro cs
  induction cs with
  | nil =>
    constructor
    · intro h t he
      simp only [jsSplitCharAux] at he
      injection he with he1 _
      rw [← he1]
    · intro l hl
      simp only [jsSplitCharAux, List.mem_singleton] at hl
      rw [hl]
  | cons x xs ih =>
    by_cases hx : x = c
    · subst hx
      have hrw : jsSplitCharAux x (x :: xs) = [] :: jsSplitCharAux x xs := by
        simp [jsSplitCharAux]
      constructor
      · intro h t he
        rw [hrw] at he
        injection he with he1 _
        rw [← he1]
        exact List.nil_prefix
      · intro l hl
        rw [hrw] at hl
        rcases List.mem_cons.mp hl with rfl | hl
        · exact List.nil_infix
        · exact List.infix_cons (ih.2 l hl)
    · obtain ⟨h₀, t₀, hr⟩ : ∃ h₀ t₀, jsSplitCharAux c xs = h₀ :: t₀ := by
        cases hsp : jsSplitCharAux c xs with
        | nil => exact absurd hsp (splitAux_ne_nil c xs)
        | cons h₀ t₀ => exact ⟨h₀, t₀, rfl⟩
      have hrw : jsSplitCharAux c (x :: xs) = (x :: h₀) :: t₀ := by
        simp only [jsSplitCharAux, hx, if_false, hr]
      constructor
      · intro h t he
        rw [hrw] at he
        injection he with he1 _
        rw [← he1]
        exact List.cons_prefix_cons.mpr ⟨rfl, ih.1 h₀ t₀ hr⟩
      · intro l hl
        rw [hrw] at hl
        rcases List.mem_cons.mp hl with rfl | hl
        · exact (List.cons_prefix_cons.mpr ⟨rfl, ih.1 h₀ t₀ hr⟩).isInfix
        · exact List.infix_cons (ih.2 l (by rw [hr]; exact List.mem_cons_of_mem _ hl))

/-- A separator-free line equals itself exactly once. -/
theorem lineCount_self {p : String} (hp : ¬ '\n' ∈ p.data) : lineCount p p = 1 := by
  unfold lineCount
  rw [splitAux_no_sep _ _ hp]
  simp

/-- Prepending the line `p` to text that does not contain `p` as a
substring yields exactly one `p` line. -/
theorem lineCount_prepend {p ex : String} (hp : ¬ '\n' ∈ p.data)
    (hni : ¬ p.data <:+: ex.data) :
    lineCount (p ++ "\n" ++ ex) p = 1 := by
  unfold lineCount
  have hdata : (p ++ "\n" ++ ex).data = p.data ++ '\n' :: ex.data := by
    rw [strData_append, strData_append]
    have hnl : ("\n" : String).data = ['\n'] := by decide
    rw [hnl, List.append_assoc]
    rfl
  rw [hdata, splitAux_append _ _ _ hp]
  have hrest : ((jsSplitCharAux '\n' ex.data).filter (fun l => l = p.data)) = [] := by
    rw [List.filter_eq_nil_iff]
    intro l hl
    simp only [decide_eq_true_eq]
    intro he
    exact hni (he ▸ (splitAux_parts '\n' ex.data).2 l hl)
  simp [List.filter_cons, hrest]

/-- Case analysis of `ensureActionNotes` when the function name is known. -/
theorem ensure_cases (notes names : List (String × String)) (aid fn : String)
    (h1 : lookupA names aid = some fn) :
    (lookupA notes aid = none →
      (ensureActionNotes notes names aid).1 = "Function: " ++ fn)
    ∧ (∀ ex, lookupA notes aid = some ex →
        (jsIncludes ex ("Function: " ++ fn) = true →
          (ensureActionNotes notes names aid).1 = ex)
        ∧ (jsIncludes ex ("Function: " ++ fn) = false →
          (ensureActionNotes notes names aid).1 = ("Function: " ++ fn) ++ "\n" ++ ex)) := by
  constructor
  · intro hex
    simp [ensureActionNotes, h1, hex]
  · intro ex hex
    constructor
    · intro hinc
      simp [ensureActionNotes, h1, hex, hinc]
    · intro hinc
      simp [ensureActionNotes, h1, hex, hinc]

/-- C8 counterexample: the claim demands the prefix line appear exactly
once after note maintenance; an analyst-saved note already containing the
prefix twice is left untouched by `ensureActionNotes` (its substring check
finds the prefix), so the maintained note carries the line twice. -/
theorem claim_C8_cex :
    lineCount (ensureActionNotes [("a", "Function: foo\nFunction: foo")]
        [("a", "foo")] "a").1 "Function: foo" ≠ 1 := by decide

/-- C8 (amended): when the function name (newline-free) of an identifier is
known, the maintained note always contains the prefix `Function: <name>` as
a substring; when there was no prior note the note becomes exactly the
prefix line (once); and when the prior note did not already contain the
prefix as a substring, the prefix line is prepended exactly once with the
prior analyst text preserved verbatim below it. -/
theorem claim_C8_amended (notes names : List (String × String)) (aid fn : String)
    (h1 : lookupA names aid = some fn) (h2 : ¬ '\n' ∈ fn.data) :
    jsIncludes (ensureActionNotes notes names aid).1 ("Function: " ++ fn) = true
    ∧ (lookupA notes aid = none →
        (ensureActionNotes notes names aid).1 = "Function: " ++ fn
        ∧ lineCount (ensureActionNotes notes names aid).1 ("Function: " ++ fn) = 1)
    ∧ (∀ ex, lookupA notes aid = some ex →
        jsIncludes ex ("Function: " ++ fn) = false →
        (ensureActionNotes notes names aid).1 = ("Function: " ++ fn) ++ "\n" ++ ex
        ∧ lineCount (ensureActionNotes notes names aid).1 ("Function: " ++ fn) = 1) := by
  have hpfxn : ¬ '\n' ∈ ("Function: " ++ fn).data := by
    rw [strData_append]
    intro hmem
    rcases List.mem_append.mp hmem with h | h
    · exact absurd h (by decide)
    · exact h2 h
  obtain ⟨hcase_none, hcase_some⟩ := ensure_cases notes names aid fn h1
  refine ⟨?_, ?_, ?_⟩
  · cases hex : lookupA notes aid with
    | none =>
      rw [hcase_none hex]
      exact decide_eq_true (List.infix_refl _)
    | some ex =>
      cases hinc : jsIncludes ex ("Function: " ++ fn) with
      | true =>
        rw [(hcase_some ex hex).1 hinc]
        exact hinc
      | false =>
        rw [(hcase_some ex hex).2 hinc]
        apply decide_eq_true
        show ("Function: " ++ fn).data <:+: (("Function: " ++ fn) ++ "\n" ++ ex).data
        simp only [strData_append]
        exact ⟨[], ("\n" : String).data ++ ex.data, by simp [List.append_assoc]⟩
  · intro hex
    refine ⟨hcase_none hex, ?_⟩
    rw [hcase_none hex]
    exact lineCount_self hpfxn
  · intro ex hex hinc
    refine ⟨(hcase_some ex hex).2 hinc, ?_⟩
    rw [(hcase_some ex hex).2 hinc]
    apply lineCount_prepend hpfxn
    intro hin
    rw [show jsIncludes ex ("Function: " ++ fn) = true from decide_eq_true hin] at hinc
    exact Bool.noConfusion hinc

/-- C8 witness: a known name `foo` and a prior analyst note `hello` yield
the note `Function: foo` followed by the preserved text, with the prefix
line exactly once. -/
theorem claim_C8_witness :
    jsIncludes (ensureActionNotes [("a", "hello")] [("a", "foo")] "a").1
        ("Function: " ++ "foo") = true
    ∧ (lookupA [("a", "hello")] "a" = none →
        (ensureActionNotes [("a", "hello")] [("a", "foo")] "a").1 = "Function: " ++ "foo"
        ∧ lineCount (ensureActionNotes [("a", "hello")] [("a", "foo")] "a").1
            ("Function: " ++ "foo") = 1)
    ∧ (∀ ex, lookupA [("a", "hello")] "a" = some ex →
        jsIncludes ex ("Function: " ++ "foo") = false →
        (ensureActionNotes [("a", "hello")] [("a", "foo")] "a").1
            = ("Function: " ++ "foo") ++ "\n" ++ ex
        ∧ lineCount (ensureActionNotes [("a", "hello")] [("a", "foo")] "a").1
            ("Function: " ++ "foo") = 1) :=
  claim_C8_amended [("a", "hello")] [("a", "foo")] "a" "foo" (by decide) (by decide)

/-! ## C9 -/

/-- Store effect of processing a list of successfully fetched pages. -/
def scanStoreOfPages (rt : Rt) (st : StoreState) (pre : List (List Item)) : StoreState :=
  pre.foldl (fun s items => items.foldl
    (fun s it => (processRequestResponse rt s it.request it.response).1) s) st

/-- The store component of the scan fold is the pure per-pair fold. -/
theorem scanItems_store (rt : Rt) :
    ∀ (items : List Item) (acc : ScanAcc),
      (items.foldl (processScanItem rt) acc).store
        = items.foldl (fun s it => (processRequestResponse rt s it.request it.response).1)
            acc.store := by
  intro items
  induction items with
  | nil => intro acc; rfl
  | cons it rest ih =>
    intro acc
    simp only [List.foldl_cons]
    rw [ih]
    rfl

/-- Driving the scan into a throwing page: the result is the error variant
with the thrown message, the events end in the failure status, and the
store keeps exactly the mutations of the preceding pages. -/
theorem scanPagesGo_error (rt : Rt) (t : Thrown) (post : List (Except Thrown (List Item))) :
    ∀ (pre : List (List Item)) (acc : ScanAcc),
      (scanPagesGo rt acc (pre.map Except.ok ++ Except.error t :: post)).1
          = scanStoreOfPages rt acc.store pre
      ∧ (∃ evs, (scanPagesGo rt acc (pre.map Except.ok ++ Except.error t :: post)).2.1
          = evs ++ [Event.status "Scan failed"])
      ∧ (scanPagesGo rt acc (pre.map Except.ok ++ Except.error t :: post)).2.2
          = Result.err (messageOf t) := by
  intro pre
  induction pre with
  | nil =>
    intro acc
    exact ⟨rfl, ⟨acc.events, rfl⟩, rfl⟩
  | cons items rest ih =>
    intro acc
    simp only [List.map_cons, List.cons_append, scanPagesGo]
    refine ⟨?_, (ih _).2.1, (ih _).2.2⟩
    refine ((ih _).1).trans ?_
    show scanStoreOfPages rt (items.foldl (processScanItem rt) acc).store rest = _
    rw [scanItems_store]
    rfl

/-- C9: a page that throws during a proxy-history scan aborts the whole
scan with the error-variant result carrying the thrown message (or
"Unknown error" for a non-Error throw), leaves the failure status as the
last notification, and retains every store mutation of the pages processed
before the failure (no rollback). -/
theorem claim_C9_scan_abort (rt : Rt) (st : StoreState) (pre : List (List Item))
    (t : Thrown) (post : List (Except Thrown (List Item))) :
    (scanProxyHistory rt st (pre.map Except.ok ++ Except.error t :: post)).2.2
        = Result.err (messageOf t)
    ∧ (∃ evs, (scanProxyHistory rt st (pre.map Except.ok ++ Except.error t :: post)).2.1
        = evs ++ [Event.status "Scan failed"])
    ∧ (scanProxyHistory rt st (pre.map Except.ok ++ Except.error t :: post)).1
        = scanStoreOfPages rt st pre := by
  obtain ⟨h1, h2, h3⟩ := scanPagesGo_error rt t post pre
    { store := st, scanned := 0, found := 0
      events := [Event.status "Scanning requests..."] }
  exact ⟨h3, h2, h1⟩
